import Mathlib

set_option maxRecDepth 8000

namespace RS

/- =====================================================================
   Shallow embedding of the resume_screener skill-analysis engine
   (app/skills/skill_database.py, app/skills/skill_extractor.py,
   app/skills/experience_detector.py).

   Strings are modelled as lists of Unicode code points (List Nat).
   Python str.lower / str.upper / str.title are modelled on the ASCII
   range, which covers all taxonomy data and the inputs of the claims.
   Python regular expressions used by the engine are either encoded as
   values of a small regex AST evaluated by a backtracking matcher whose
   solution order mirrors Python's backtracking priority (alternation
   left-to-right, greedy star, greedy option), or - for the single
   literal-alternation "mega pattern" of the extractor - by a direct
   scanner over the alternative list.
   ===================================================================== -/

/-- Code points of a string literal. -/
def strB (s : String) : List Nat := s.data.map Char.toNat

/-- Python str whitespace on ASCII: space, \t, \n, \r, \v, \f. -/
def isSpaceB (c : Nat) : Bool := c = 32 || c = 9 || c = 10 || c = 13 || c = 11 || c = 12

def isDigitB (c : Nat) : Bool := 48 ≤ c && c ≤ 57

def isUpperB (c : Nat) : Bool := 65 ≤ c && c ≤ 90

def isLowerB (c : Nat) : Bool := 97 ≤ c && c ≤ 122

def isAlphaB (c : Nat) : Bool := isUpperB c || isLowerB c

/-- Regex word character (\w) on ASCII. -/
def isWordB (c : Nat) : Bool := isAlphaB c || isDigitB c || c = 95

/-- Python str.lower on an ASCII code point. -/
def pyLowerC (c : Nat) : Nat := if isUpperB c then c + 32 else c

/-- Python str.upper on an ASCII code point. -/
def pyUpperC (c : Nat) : Nat := if isLowerB c then c - 32 else c

def lowerL (s : List Nat) : List Nat := s.map pyLowerC

/-- Python str.strip(). -/
def stripL (s : List Nat) : List Nat :=
  ((s.dropWhile isSpaceB).reverse.dropWhile isSpaceB).reverse

/-- Python str.title: a character is uppercased when the previous character
is not alphabetic (ASCII model of "cased"), lowercased otherwise. -/
def titleGo : Bool → List Nat → List Nat
  | _, [] => []
  | prevAlpha, c :: cs =>
      (if prevAlpha then pyLowerC c else pyUpperC c) :: titleGo (isAlphaB c) cs

def titleL (s : List Nat) : List Nat := titleGo false s

/-- Python substring test (`needle in hay`). -/
def containsSub : List Nat → List Nat → Bool
  | [], needle => needle.isPrefixOf ([] : List Nat)
  | hay@(_ :: t), needle => needle.isPrefixOf hay || containsSub t needle

def parseNatGo (acc : Nat) : List Nat → Nat
  | [] => acc
  | c :: cs => parseNatGo (acc * 10 + (c - 48)) cs

/-- int() of a digit string. -/
def parseNatB (s : List Nat) : Nat := parseNatGo 0 s

/-- str() of a non-negative int. -/
def natToStrB (n : Nat) : List Nat := strB (toString n)

/- =====================================================================
   A small regex AST with a backtracking matcher.  `matchEnds r s` lists
   the lengths of the prefixes of `s` matched by `r`, in Python's
   backtracking priority order (so the head is the end Python commits to
   at this start position).
   ===================================================================== -/

inductive RE where
  | eps : RE
  | lit : Nat → RE
  | cls : (Nat → Bool) → RE
  | alt : RE → RE → RE
  | cat : RE → RE → RE
  | star : RE → RE

/-- Greedy Kleene star: longer repetitions first, the empty match last;
empty-width repetitions are not iterated (as in Python). -/
def starEnds (m : List Nat → List Nat) : Nat → List Nat → List Nat
  | 0, _ => [0]
  | f + 1, s =>
      (((m s).filter (fun e => 0 < e)).flatMap fun e =>
        (starEnds m f (s.drop e)).map (fun e2 => e + e2)) ++ [0]

def matchEnds : RE → List Nat → List Nat
  | .eps, _ => [0]
  | .lit c, s =>
      match s with
      | c' :: _ => if c' = c then [1] else []
      | [] => []
  | .cls p, s =>
      match s with
      | c' :: _ => if p c' then [1] else []
      | [] => []
  | .alt a b, s => matchEnds a s ++ matchEnds b s
  | .cat a b, s =>
      (matchEnds a s).flatMap fun e => (matchEnds b (s.drop e)).map (fun e2 => e + e2)
  | .star a, s => starEnds (matchEnds a) (s.length + 1) s

/-- Match a sequence of components; each solution lists the cumulative end
offset of every component, in backtracking priority order. -/
def matchSeqEnds : List RE → List Nat → List (List Nat)
  | [], _ => [[]]
  | r :: rs, s =>
      (matchEnds r s).flatMap fun e =>
        (matchSeqEnds rs (s.drop e)).map (fun es => e :: es.map (fun x => e + x))

/-- re.search: leftmost start position, then Python's preferred solution.
Returns the start position and the cumulative component end offsets
(relative to the start). -/
def searchGo (rs : List RE) : Nat → List Nat → Option (Nat × List Nat)
  | p, [] =>
      match matchSeqEnds rs [] with
      | es :: _ => some (p, es)
      | [] => none
  | p, c :: t =>
      match matchSeqEnds rs (c :: t) with
      | es :: _ => some (p, es)
      | [] => searchGo rs (p + 1) t

/-- Truthiness of re.search. -/
def reTest (r : RE) (s : List Nat) : Bool := (searchGo [r] 0 s).isSome

/-- re.split: cut at each non-overlapping leftmost match. -/
def reSplitGo (r : RE) : Nat → List Nat → List (List Nat)
  | 0, s => [s]
  | f + 1, s =>
      match searchGo [r] 0 s with
      | none => [s]
      | some (p, es) =>
          let e := p + es.headD 0
          if p < e then s.take p :: reSplitGo r f (s.drop e) else [s]

def reSplitAll (r : RE) (s : List Nat) : List (List Nat) := reSplitGo r (s.length + 1) s

/-- Literal string as a regex. -/
def strR (s : String) : RE := (strB s).foldr (fun c r => RE.cat (RE.lit c) r) RE.eps

def litL (s : List Nat) : RE := s.foldr (fun c r => RE.cat (RE.lit c) r) RE.eps

/-- Alternation of a list, tried left to right (Python's `a|b|c`). -/
def altL : List RE → RE
  | [] => RE.cls (fun _ => false)
  | [r] => r
  | r :: rs => RE.alt r (altL rs)

def altS (ss : List String) : RE := altL (ss.map strR)

def seqR (rs : List RE) : RE := rs.foldr RE.cat RE.eps

/-- Greedy `r?` (present branch first, as in Python). -/
def optR (r : RE) : RE := RE.alt r RE.eps

/-- Greedy `r+`. -/
def plusR (r : RE) : RE := RE.cat r (RE.star r)

def spaceR : RE := RE.cls isSpaceB

def wsStar : RE := RE.star spaceR

def wsPlus : RE := plusR spaceR

def digitR : RE := RE.cls isDigitB

/-- Python `.` (any character except newline). -/
def dotR : RE := RE.cls (fun c => !(c = 10))

/- =====================================================================
   app/skills/skill_database.py
   ===================================================================== -/

/-- SKILL_ALIASES: maps variations to canonical names (dict, insertion
order preserved). -/
def SKILL_ALIASES : List (List Nat × List Nat) := [
  (strB "js", strB "JavaScript"),
  (strB "javascript", strB "JavaScript"),
  (strB "es6", strB "JavaScript"),
  (strB "es2015", strB "JavaScript"),
  (strB "ecmascript", strB "JavaScript"),
  (strB "ts", strB "TypeScript"),
  (strB "typescript", strB "TypeScript"),
  (strB "py", strB "Python"),
  (strB "python", strB "Python"),
  (strB "python3", strB "Python"),
  (strB "python2", strB "Python"),
  (strB "react", strB "React"),
  (strB "reactjs", strB "React"),
  (strB "react.js", strB "React"),
  (strB "node", strB "Node.js"),
  (strB "nodejs", strB "Node.js"),
  (strB "node.js", strB "Node.js"),
  (strB "postgres", strB "PostgreSQL"),
  (strB "postgresql", strB "PostgreSQL"),
  (strB "mysql", strB "MySQL"),
  (strB "mongo", strB "MongoDB"),
  (strB "mongodb", strB "MongoDB"),
  (strB "sql server", strB "SQL Server"),
  (strB "mssql", strB "SQL Server"),
  (strB "aws", strB "AWS"),
  (strB "amazon web services", strB "AWS"),
  (strB "azure", strB "Azure"),
  (strB "microsoft azure", strB "Azure"),
  (strB "gcp", strB "Google Cloud"),
  (strB "google cloud", strB "Google Cloud"),
  (strB "google cloud platform", strB "Google Cloud"),
  (strB "docker", strB "Docker"),
  (strB "containerization", strB "Docker"),
  (strB "k8s", strB "Kubernetes"),
  (strB "kubernetes", strB "Kubernetes"),
  (strB "c#", strB "C#"),
  (strB "csharp", strB "C#"),
  (strB "c sharp", strB "C#"),
  (strB "c++", strB "C++"),
  (strB "cpp", strB "C++"),
  (strB ".net", strB ".NET"),
  (strB "dotnet", strB ".NET"),
  (strB "dot net", strB ".NET"),
  (strB "ml", strB "Machine Learning"),
  (strB "machine learning", strB "Machine Learning"),
  (strB "ai", strB "Artificial Intelligence"),
  (strB "artificial intelligence", strB "Artificial Intelligence"),
  (strB "dl", strB "Deep Learning"),
  (strB "deep learning", strB "Deep Learning"),
  (strB "nlp", strB "NLP"),
  (strB "natural language processing", strB "NLP"),
  (strB "tensorflow", strB "TensorFlow"),
  (strB "tf", strB "TensorFlow"),
  (strB "pytorch", strB "PyTorch"),
  (strB "torch", strB "PyTorch"),
  (strB "git", strB "Git"),
  (strB "github", strB "GitHub"),
  (strB "gitlab", strB "GitLab"),
  (strB "bitbucket", strB "Bitbucket"),
  (strB "ci/cd", strB "CI/CD"),
  (strB "cicd", strB "CI/CD"),
  (strB "continuous integration", strB "CI/CD"),
  (strB "jenkins", strB "Jenkins"),
  (strB "agile", strB "Agile"),
  (strB "scrum", strB "Scrum"),
  (strB "kanban", strB "Kanban"),
  (strB "angular", strB "Angular"),
  (strB "angularjs", strB "Angular"),
  (strB "vue", strB "Vue.js"),
  (strB "vuejs", strB "Vue.js"),
  (strB "vue.js", strB "Vue.js"),
  (strB "svelte", strB "Svelte"),
  (strB "nextjs", strB "Next.js"),
  (strB "next.js", strB "Next.js"),
  (strB "django", strB "Django"),
  (strB "flask", strB "Flask"),
  (strB "fastapi", strB "FastAPI"),
  (strB "express", strB "Express.js"),
  (strB "expressjs", strB "Express.js"),
  (strB "spring", strB "Spring"),
  (strB "spring boot", strB "Spring Boot"),
  (strB "springboot", strB "Spring Boot"),
  (strB "react native", strB "React Native"),
  (strB "flutter", strB "Flutter"),
  (strB "swift", strB "Swift"),
  (strB "kotlin", strB "Kotlin"),
  (strB "ios", strB "iOS Development"),
  (strB "android", strB "Android Development"),
  (strB "pandas", strB "Pandas"),
  (strB "numpy", strB "NumPy"),
  (strB "scipy", strB "SciPy"),
  (strB "scikit-learn", strB "Scikit-learn"),
  (strB "sklearn", strB "Scikit-learn"),
  (strB "matplotlib", strB "Matplotlib"),
  (strB "seaborn", strB "Seaborn"),
  (strB "spark", strB "Apache Spark"),
  (strB "apache spark", strB "Apache Spark"),
  (strB "hadoop", strB "Hadoop"),
  (strB "kafka", strB "Apache Kafka"),
  (strB "apache kafka", strB "Apache Kafka"),
  (strB "jest", strB "Jest"),
  (strB "mocha", strB "Mocha"),
  (strB "pytest", strB "pytest"),
  (strB "unittest", strB "unittest"),
  (strB "selenium", strB "Selenium"),
  (strB "cypress", strB "Cypress"),
  (strB "rest", strB "REST API"),
  (strB "restful", strB "REST API"),
  (strB "rest api", strB "REST API"),
  (strB "graphql", strB "GraphQL"),
  (strB "grpc", strB "gRPC")]

/-- SKILL_CATEGORIES (dict of sets, dict insertion order preserved; the
order inside each set is irrelevant: only membership is ever used). -/
def SKILL_CATEGORIES : List (List Nat × List (List Nat)) := [
  (strB "programming_languages", [
    strB "JavaScript", strB "TypeScript", strB "Python", strB "Java", strB "C#",
    strB "C++", strB "C", strB "Go", strB "Rust", strB "Ruby", strB "PHP",
    strB "Swift", strB "Kotlin", strB "Scala", strB "R", strB "MATLAB",
    strB "Perl", strB "Haskell", strB "Elixir", strB "Clojure"]),
  (strB "frontend", [
    strB "React", strB "Angular", strB "Vue.js", strB "Svelte", strB "Next.js",
    strB "HTML", strB "CSS", strB "Sass", strB "Less", strB "Tailwind CSS",
    strB "Bootstrap", strB "Material UI", strB "Redux", strB "MobX",
    strB "Webpack", strB "Vite", strB "jQuery"]),
  (strB "backend", [
    strB "Node.js", strB "Django", strB "Flask", strB "FastAPI",
    strB "Express.js", strB "Spring", strB "Spring Boot", strB ".NET",
    strB "Ruby on Rails", strB "Laravel", strB "ASP.NET"]),
  (strB "databases", [
    strB "PostgreSQL", strB "MySQL", strB "MongoDB", strB "Redis",
    strB "Elasticsearch", strB "SQL Server", strB "Oracle", strB "SQLite",
    strB "Cassandra", strB "DynamoDB", strB "Firebase", strB "Neo4j"]),
  (strB "cloud", [
    strB "AWS", strB "Azure", strB "Google Cloud", strB "Heroku",
    strB "DigitalOcean", strB "Vercel", strB "Netlify", strB "Cloudflare"]),
  (strB "devops", [
    strB "Docker", strB "Kubernetes", strB "CI/CD", strB "Jenkins",
    strB "GitHub Actions", strB "GitLab CI", strB "Terraform", strB "Ansible",
    strB "Linux", strB "Nginx", strB "Apache"]),
  (strB "data_science", [
    strB "Machine Learning", strB "Deep Learning", strB "NLP",
    strB "TensorFlow", strB "PyTorch", strB "Keras", strB "Scikit-learn",
    strB "Pandas", strB "NumPy", strB "Data Analysis", strB "Statistics",
    strB "Computer Vision"]),
  (strB "mobile", [
    strB "React Native", strB "Flutter", strB "iOS Development",
    strB "Android Development", strB "Swift", strB "Kotlin", strB "Xamarin"]),
  (strB "tools", [
    strB "Git", strB "GitHub", strB "GitLab", strB "Bitbucket", strB "Jira",
    strB "Confluence", strB "Slack", strB "VS Code", strB "IntelliJ",
    strB "Postman", strB "Figma"]),
  (strB "soft_skills", [
    strB "Leadership", strB "Communication", strB "Teamwork",
    strB "Problem Solving", strB "Critical Thinking", strB "Time Management",
    strB "Agile", strB "Scrum", strB "Project Management", strB "Mentoring"]),
  (strB "testing", [
    strB "Jest", strB "Mocha", strB "pytest", strB "Selenium", strB "Cypress",
    strB "JUnit", strB "TestNG", strB "Unit Testing",
    strB "Integration Testing", strB "E2E Testing", strB "TDD", strB "BDD"])]

/-- First-occurrence deduplication (model of building a Python set whose
use is order-insensitive). -/
def presDedupGo (seen : List (List Nat)) : List (List Nat) → List (List Nat)
  | [] => []
  | x :: xs => if seen.contains x then presDedupGo seen xs else x :: presDedupGo (x :: seen) xs

def presDedup (l : List (List Nat)) : List (List Nat) := presDedupGo [] l

/-- SkillDatabase._aliases: alias keys lowercased. -/
def db_aliases : List (List Nat × List Nat) :=
  SKILL_ALIASES.map (fun kv => (lowerL kv.1, kv.2))

/-- SkillDatabase._build_skill_set: all category members plus all alias
values (a Python set; only membership and a uniqueness-backed scan are
used, so first-occurrence order is adequate). -/
def all_skills : List (List Nat) :=
  presDedup ((SKILL_CATEGORIES.flatMap (fun c => c.2)) ++ db_aliases.map (fun kv => kv.2))

def lookupAlias (k : List Nat) : Option (List Nat) :=
  (db_aliases.find? (fun kv => kv.1 == k)).map (fun kv => kv.2)

/-- SkillDatabase.normalize. -/
def normalize (skill : List Nat) : List Nat :=
  let skill_lower := stripL (lowerL skill)
  match lookupAlias skill_lower with
  | some v => v
  | none =>
      match all_skills.find? (fun k => lowerL k == skill_lower) with
      | some k => k
      | none => titleL (stripL skill)

/-- SkillDatabase.get_category: first category (in dict order) containing
the normalized name. -/
def get_category (skill : List Nat) : Option (List Nat) :=
  let normalized := normalize skill
  (SKILL_CATEGORIES.find? (fun c => c.2.contains normalized)).map (fun c => c.1)

def is_core_skill (skill : List Nat) : Bool :=
  match get_category skill with
  | some c => c == strB "programming_languages" || c == strB "frontend" ||
      c == strB "backend" || c == strB "databases" || c == strB "data_science"
  | none => false

def is_tool (skill : List Nat) : Bool :=
  match get_category skill with
  | some c => c == strB "tools" || c == strB "devops" || c == strB "testing"
  | none => false

/- =====================================================================
   app/skills/skill_extractor.py
   ===================================================================== -/

/-- Insert into a length-descending list (stable for equal lengths). -/
def insByLen (x : List Nat) : List (List Nat) → List (List Nat)
  | [] => [x]
  | y :: ys => if y.length ≤ x.length then x :: y :: ys else y :: insByLen x ys

def sortByLenDesc (l : List (List Nat)) : List (List Nat) := l.foldr insByLen []

/-- SkillExtractor._compile_patterns: the alternatives of the mega
pattern - every (lowercased) alias key and every lowercased canonical
name, deduplicated, longest first.  The source sorts `set(...)` with
`key=len, reverse=True`, so the relative order of equal-length
alternatives is unspecified; it is irrelevant for matching, because two
distinct literals of the same length can never both match at one
position. -/
def all_skills_sorted : List (List Nat) :=
  sortByLenDesc (presDedup (db_aliases.map (fun kv => kv.1) ++ all_skills.map lowerL))

def isWordO : Option Nat → Bool
  | some c => isWordB c
  | none => false

/-- One alternative of `\b(a1|a2|...)\b` matching at the current
position: the literal is a prefix of the remaining text and both word
boundaries hold (the text is already lowercased, so IGNORECASE matching
of the lowercase literals is literal matching). -/
def altMatchesHere (a : List Nat) (prev : Option Nat) (s : List Nat) : Bool :=
  !a.isEmpty && a.isPrefixOf s &&
    (isWordO prev != isWordB (a.headD 0)) &&
    (isWordB (a.getLastD 0) != isWordO (s.drop a.length).head?)

/-- First alternative (in the longest-first order) matching here. -/
def tryAlts (alts : List (List Nat)) (prev : Option Nat) (s : List Nat) : Option (List Nat) :=
  alts.find? (fun a => altMatchesHere a prev s)

/-- findall of the mega pattern: scan left to right, at each position try
the alternatives in order, continue after a match (non-overlapping). -/
def findallGo (alts : List (List Nat)) : Nat → Option Nat → List Nat → List (List Nat)
  | 0, _, _ => []
  | _ + 1, _, [] => []
  | f + 1, prev, s@(c :: rest) =>
      match tryAlts alts prev s with
      | some a => a :: findallGo alts f (some (a.getLastD 0)) (s.drop a.length)
      | none => findallGo alts f (some c) rest

/-- self._skill_pattern.findall(sentence_lower). -/
def findall_skill_pattern (s : List Nat) : List (List Nat) :=
  findallGo all_skills_sorted (s.length + 1) none s

/-- EXPERT_PATTERNS with {skill} substituted (re.escape makes the skill a
literal). -/
def EXPERT_PATTERNS (skill : List Nat) : List RE := [
  seqR [altS ["expert", "advanced", "senior", "lead", "architect"], wsPlus,
        optR (altS ["in", "with", "level"]), wsStar, litL skill],
  seqR [litL skill, wsPlus, altS ["expert", "architect", "lead"]],
  seqR [altS ["deep", "extensive", "strong"], wsPlus,
        altS ["experience", "expertise", "knowledge"], wsPlus,
        altS ["in", "with"], wsPlus, litL skill],
  seqR [RE.alt (seqR [plusR digitR, optR (RE.lit 43), wsStar, strR "year", optR (RE.lit 115)])
               (seqR [RE.cls (fun c => 53 ≤ c && c ≤ 57), RE.star digitR, wsStar,
                      strR "year", optR (RE.lit 115)]),
        wsPlus, optR (seqR [strR "of", wsPlus]), optR (seqR [strR "experience", wsPlus]),
        altS ["in", "with"], wsPlus, litL skill]]

def PROFICIENT_PATTERNS (skill : List Nat) : List RE := [
  seqR [altS ["proficient", "experienced", "skilled"], wsPlus,
        altS ["in", "with"], wsPlus, litL skill],
  seqR [litL skill, wsPlus, altS ["developer", "engineer", "specialist"]],
  seqR [altS ["worked", "working"], wsPlus, optR (seqR [strR "extensively", wsPlus]),
        altS ["with", "on"], wsPlus, litL skill],
  seqR [RE.cls (fun c => 50 ≤ c && c ≤ 52), wsStar, strR "year", optR (RE.lit 115),
        wsPlus, optR (seqR [strR "of", wsPlus]), optR (seqR [strR "experience", wsPlus]),
        altS ["in", "with"], wsPlus, litL skill],
  seqR [altS ["built", "developed", "created", "implemented"], wsPlus,
        RE.star dotR, litL skill]]

def USED_PATTERNS (skill : List Nat) : List RE := [
  seqR [altL [strR "used", strR "using", seqR [strR "worked", wsPlus, strR "with"]],
        wsPlus, litL skill],
  seqR [litL skill, wsPlus, altS ["for", "in"], wsPlus],
  seqR [altS ["experience", "knowledge"], wsPlus, altS ["in", "with", "of"],
        wsPlus, litL skill],
  seqR [altS ["familiar", "comfortable"], wsPlus, strR "with", wsPlus, litL skill]]

/-- SkillExtractor._extract_years: leftmost match of `(\d+)\+?\s*years?`
over the lowercased context; group(1) parsed as an integer (the source
returns a float, but every produced value is integral, so Nat suffices). -/
def yearsComps : List RE := [plusR digitR, optR (RE.lit 43), wsStar, strR "year", optR (RE.lit 115)]

def extract_years (context : List Nat) : Nat :=
  match searchGo yearsComps 0 (lowerL context) with
  | some (p, es) => parseNatB (((lowerL context).take (p + es.headD 0)).drop p)
  | none => 0

/-- SkillExtractor._detect_experience_level.  (MENTIONED_PATTERNS is never
consulted by the source: the bare tier is the fall-through default.) -/
def detect_experience_level (context skill : List Nat) : List Nat × Nat :=
  let context_lower := lowerL context
  let sk := lowerL skill
  if (EXPERT_PATTERNS sk).any (fun r => reTest r context_lower) then
    let years := extract_years context
    (strB "expert", if 0 < years then years else 5)
  else if (PROFICIENT_PATTERNS sk).any (fun r => reTest r context_lower) then
    let years := extract_years context
    (strB "proficient", if 0 < years then years else 3)
  else if (USED_PATTERNS sk).any (fun r => reTest r context_lower) then
    let years := extract_years context
    (strB "used", if 0 < years then years else 1)
  else (strB "mentioned", 0)

/-- A sentence-boundary character: `.`, `!`, `?` or newline. -/
def isBreakB (c : Nat) : Bool := c = 46 || c = 33 || c = 63 || c = 10

/-- SkillExtractor._split_sentences: split on `[.!?\n]+`, strip, drop
empties. -/
def sentenceBreakRE : RE := plusR (RE.cls isBreakB)

def split_sentences (text : List Nat) : List (List Nat) :=
  ((reSplitAll sentenceBreakRE text).map stripL).filter (fun s => !s.isEmpty)

structure ExtractedSkill where
  name : List Nat
  normalized_name : List Nat
  category : List Nat
  experience_level : List Nat
  context : List Nat
  years : Nat
deriving DecidableEq

/-- One ExtractedSkill record as built inside extract_skills. -/
def mkExtracted (sentence m : List Nat) : ExtractedSkill :=
  let normalized := normalize m
  let lv := detect_experience_level sentence m
  let cat := match get_category normalized with
    | some c => if c.isEmpty then strB "other" else c
    | none => strB "other"
  ⟨m, normalized, cat, lv.1, stripL sentence, lv.2⟩

/-- The inner loop of extract_skills over one sentence: emit a record per
match whose normalized (lowercased) name is unseen; thread `seen`. -/
def procMatches (sentence : List Nat) :
    List (List Nat) → List (List Nat) → List ExtractedSkill × List (List Nat)
  | seen, [] => ([], seen)
  | seen, m :: ms =>
      let normalized := normalize m
      if seen.contains (lowerL normalized) then procMatches sentence seen ms
      else
        let res := procMatches sentence (lowerL normalized :: seen) ms
        (mkExtracted sentence m :: res.1, res.2)

/-- The outer loop of extract_skills over sentences. -/
def extractGo : List (List Nat) → List (List Nat) → List ExtractedSkill
  | _, [] => []
  | seen, snt :: rest =>
      let pr := procMatches snt seen (findall_skill_pattern (lowerL snt))
      pr.1 ++ extractGo pr.2 rest

/-- SkillExtractor.extract_skills. -/
def extract_skills (text : List Nat) : List ExtractedSkill :=
  extractGo [] (split_sentences text)

/- =====================================================================
   app/skills/experience_detector.py
   ===================================================================== -/

structure WorkExperience where
  title : List Nat
  company : List Nat
  duration_months : Int
  start_date : Option (List Nat)
  end_date : Option (List Nat)
  is_current : Bool
  is_internship : Bool
  is_freelance : Bool
  description : List Nat
deriving DecidableEq

structure Project where
  name : List Nat
  description : List Nat
  technologies : List (List Nat)
  is_professional : Bool
deriving DecidableEq

structure ExperienceAnalysis where
  total_experience_months : Int
  relevant_experience_months : Int
  work_experiences : List WorkExperience
  projects : List Project
  has_career_gaps : Bool
  gap_explanation : Option (List Nat)
  experience_trajectory : List Nat
  seniority_estimate : List Nat
deriving DecidableEq

def EXPERIENCE_HEADERS : List RE := [
  seqR [optR (seqR [strR "work", wsPlus]), strR "experience"],
  seqR [strR "employment", wsPlus, strR "history"],
  seqR [strR "professional", wsPlus, strR "experience"],
  seqR [strR "career", wsPlus, strR "history"],
  seqR [strR "work", wsPlus, strR "history"]]

def PROJECT_HEADERS : List RE := [
  seqR [strR "project", optR (RE.lit 115)],
  seqR [strR "personal", wsPlus, strR "project", optR (RE.lit 115)],
  seqR [strR "side", wsPlus, strR "project", optR (RE.lit 115)],
  strR "portfolio",
  seqR [strR "notable", wsPlus, strR "project", optR (RE.lit 115)]]

def INTERNSHIP_INDICATORS : List (List Nat) :=
  [strB "intern", strB "internship", strB "trainee", strB "apprentice"]

def FREELANCE_INDICATORS : List (List Nat) :=
  [strB "freelance", strB "consultant", strB "contractor", strB "self-employed", strB "independent"]

/-- `\n\s*(?:education|skills|certif|awards|reference|contact)`. -/
def nextSectionRE : RE :=
  seqR [RE.lit 10, wsStar,
        altS ["education", "skills", "certif", "awards", "reference", "contact"]]

def findFirstSome {α β : Type} (f : α → Option β) : List α → Option β
  | [] => none
  | x :: xs =>
      match f x with
      | some y => some y
      | none => findFirstSome f xs

/-- ExperienceDetector._find_section: first header pattern (in order) whose
`\n\s*(header)\s*[:\n]` matches the lowercased text; the section runs from
the end of that match to the next major header (or end of text), sliced
out of the original text. -/
def find_section (text : List Nat) (headers : List RE) : Option (List Nat) :=
  let text_lower := lowerL text
  findFirstSome (fun h =>
    match searchGo [RE.lit 10, wsStar, h, wsStar, RE.cls (fun c => c = 58 || c = 10)] 0 text_lower with
    | some (p, es) =>
        let start := p + es.getLastD 0
        let endPos :=
          match searchGo [nextSectionRE] 0 (text_lower.drop start) with
          | some (q, _) => start + q
          | none => text.length
        some ((text.take endPos).drop start)
    | none => none) headers

/-- `\n\s*\n`: a blank-line run separator. -/
def blankRunRE : RE := seqR [RE.lit 10, wsStar, RE.lit 10]

/-- ExperienceDetector._split_into_entries. -/
def split_into_entries (sect : List Nat) : List (List Nat) :=
  ((reSplitAll blankRunRE sect).map stripL).filter
    (fun e => !e.isEmpty && decide (20 < e.length))

/-- The single TITLE_PATTERNS regex as components (searched with
IGNORECASE, i.e. over the lowercased line). -/
def titleComps : List RE := [
  optR (altS ["senior", "junior", "lead", "principal", "staff", "associate"]),
  wsStar,
  optR (altL [strR "software", strR "backend", strR "frontend",
              seqR [strR "full", optR (RE.cls (fun c => isSpaceB c || c = 45)), strR "stack"],
              strR "web", strR "mobile", strR "devops", strR "data", strR "ml", strR "ai"]),
  wsStar,
  altS ["engineer", "developer", "programmer", "architect", "analyst",
        "scientist", "manager", "director"]]

/-- ExperienceDetector._extract_title: group(0) of the title pattern,
stripped and title-cased; otherwise the stripped line when shorter than
100 characters, else nothing. -/
def extract_title (line : List Nat) : Option (List Nat) :=
  match searchGo titleComps 0 (lowerL line) with
  | some (p, es) => some (titleL (stripL ((line.take (p + es.getLastD 0)).drop p)))
  | none =>
      let t := stripL line
      if t.length < 100 then some (t.take 100) else none

/-- `[A-Z][a-zA-Z0-9\s&.]+` character class (tail part). -/
def companyClass : RE := RE.cls (fun c => isAlphaB c || isDigitB c || isSpaceB c || c = 38 || c = 46)

def companyComps1 : List RE :=
  [RE.alt (strR "at") (RE.lit 64), wsPlus, RE.cat (RE.cls isUpperB) (plusR companyClass)]

def companyComps2 : List RE :=
  [RE.cat (RE.cls isUpperB) (plusR companyClass), wsStar,
   RE.cls (fun c => c = 45 || c = 124), wsStar, altS ["senior", "junior", "lead", "software"]]

/-- ExperienceDetector._extract_company (case-sensitive, over the whole
entry; first pattern wins, group(1) stripped). -/
def extract_company (entry : List Nat) : Option (List Nat) :=
  match searchGo companyComps1 0 entry with
  | some (p, es) =>
      some (stripL ((entry.take (p + es.getD 2 0)).drop (p + es.getD 1 0)))
  | none =>
      match searchGo companyComps2 0 entry with
      | some (p, es) => some (stripL ((entry.take (p + es.getD 0 0)).drop p))
      | none => none

def fourDigits : RE := seqR [digitR, digitR, digitR, digitR]

/-- `(\d{4})\s*[-\u2013to]+\s*(\d{4}|present|current|now)` as components. -/
def yearRangeComps : List RE := [
  fourDigits, wsStar,
  plusR (RE.cls (fun c => c = 45 || c = 8211 || c = 116 || c = 111)), wsStar,
  altL [fourDigits, strR "present", strR "current", strR "now"]]

def monthAlt : RE :=
  altS ["jan", "feb", "mar", "apr", "may", "jun", "jul", "aug", "sep", "oct", "nov", "dec"]

/-- `(jan|...|dec)[a-z]*\.?\s*(\d{4})` as components. -/
def monthYearComps : List RE :=
  [monthAlt, RE.star (RE.cls isLowerB), optR (RE.lit 46), wsStar, fourDigits]

def monthNum (m : List Nat) : Nat :=
  if m = strB "jan" then 1 else if m = strB "feb" then 2
  else if m = strB "mar" then 3 else if m = strB "apr" then 4
  else if m = strB "may" then 5 else if m = strB "jun" then 6
  else if m = strB "jul" then 7 else if m = strB "aug" then 8
  else if m = strB "sep" then 9 else if m = strB "oct" then 10
  else if m = strB "nov" then 11 else 12

/-- re.findall of the month-year pattern, collecting the two groups. -/
def monthYearFindAllGo : Nat → List Nat → List (List Nat × List Nat)
  | 0, _ => []
  | f + 1, s =>
      match searchGo monthYearComps 0 s with
      | none => []
      | some (p, es) =>
          let endOff := p + es.getD 4 0
          let g1 := (s.take (p + es.getD 0 0)).drop p
          let g2 := (s.take endOff).drop (p + es.getD 3 0)
          if p < endOff then (g1, g2) :: monthYearFindAllGo f (s.drop endOff) else []

def monthYearFindAll (s : List Nat) : List (List Nat × List Nat) :=
  monthYearFindAllGo (s.length + 1) s

/-- ExperienceDetector._extract_dates.  `datetime.now()` is passed in as
(nowY, nowM).  Durations are Python ints (Int here); both date branches
floor at 1, the no-date branch defaults to 12. -/
def extract_dates (entry : List Nat) (nowY nowM : Nat) :
    Option (List Nat) × Option (List Nat) × Int :=
  let entry_lower := lowerL entry
  match searchGo yearRangeComps 0 entry_lower with
  | some (p, es) =>
      let startTxt := (entry_lower.take (p + es.getD 0 0)).drop p
      let endTxt := (entry_lower.take (p + es.getD 4 0)).drop (p + es.getD 3 0)
      let start_year := parseNatB startTxt
      let isPresent := endTxt == strB "present" || endTxt == strB "current" || endTxt == strB "now"
      let end_year := if isPresent then nowY else parseNatB endTxt
      let end_month := if isPresent then nowM else 12
      let duration : Int := ((end_year : Int) - (start_year : Int)) * 12 + ((end_month : Int) - 6)
      (some (natToStrB start_year), some endTxt, max 1 duration)
  | none =>
      match monthYearFindAll entry_lower with
      | (m1, y1) :: (m2, y2) :: _ =>
          let startS := titleL m1 ++ 32 :: y1
          let endS := titleL m2 ++ 32 :: y2
          let sm := monthNum (m1.take 3)
          let em := monthNum (m2.take 3)
          let duration : Int :=
            ((parseNatB y2 : Int) - (parseNatB y1 : Int)) * 12 + ((em : Int) - (sm : Int))
          (some startS, some endS, max 1 duration)
      | _ => (none, none, 12)

/-- ExperienceDetector._parse_experience_entry.  The `match ... | [] =>
none` mirrors the source "if not lines: return None" (unreachable, since
split always yields at least one piece). -/
def parse_experience_entry (entry : List Nat) (nowY nowM : Nat) : Option WorkExperience :=
  match entry.splitOn 10 with
  | [] => none
  | l0 :: _ =>
      let title := match extract_title l0 with
        | some t => if t.isEmpty then strB "Unknown Position" else t
        | none => strB "Unknown Position"
      let company := match extract_company entry with
        | some c => if c.isEmpty then strB "Unknown Company" else c
        | none => strB "Unknown Company"
      let d := extract_dates entry nowY nowM
      let is_internship := INTERNSHIP_INDICATORS.any (fun w => containsSub (lowerL entry) w)
      let is_freelance := FREELANCE_INDICATORS.any (fun w => containsSub (lowerL entry) w)
      let is_current := match d.2.1 with
        | some e =>
            if !e.isEmpty then e == strB "present" || e == strB "current" || e == strB "now"
            else true
        | none => true
      some ⟨title, company, d.2.2, d.1, d.2.1, is_current, is_internship, is_freelance, entry⟩

/-- `re.search(rf'\b{re.escape(alias)}\b', entry, re.IGNORECASE)`: scan
the lowercased entry for a word-bounded occurrence of the (lowercase)
alias. -/
def wbGo (al : List Nat) : Option Nat → List Nat → Bool
  | prev, [] => altMatchesHere al prev []
  | prev, c :: t => altMatchesHere al prev (c :: t) || wbGo al (some c) t

def word_bounded_occurs (al s : List Nat) : Bool := wbGo al none (lowerL s)

def joinNL : List (List Nat) → List Nat
  | [] => []
  | [l] => l
  | l :: ls => l ++ 10 :: joinNL ls

def PROFESSIONAL_WORDS : List (List Nat) :=
  [strB "client", strB "company", strB "production", strB "deployed", strB "users"]

/-- ExperienceDetector._parse_project_entry.  The source collects
`list(set(techs))` whose order is unspecified; first-occurrence
deduplication is used here (claims never depend on that order). -/
def parse_project_entry (entry : List Nat) : Option Project :=
  match entry.splitOn 10 with
  | [] => none
  | l0 :: rest =>
      let name := (stripL l0).take 100
      let description := stripL (joinNL rest)
      let techs := (db_aliases.map (fun kv => kv.1)).filterMap (fun al =>
        if word_bounded_occurs al entry then some (normalize al) else none)
      let is_professional := PROFESSIONAL_WORDS.any (fun w => containsSub (lowerL entry) w)
      some ⟨name, description, presDedup techs, is_professional⟩

/-- ExperienceDetector._calculate_relevant_experience. -/
def calculate_relevant_experience (experiences : List WorkExperience)
    (projects : List Project) (required_skills : List (List Nat)) : Int :=
  if required_skills.isEmpty then (experiences.map (fun e => e.duration_months)).sum
  else
    let required_lower := required_skills.map lowerL
    let r1 := experiences.foldl (fun acc e =>
      if required_lower.any (fun sk => containsSub (lowerL e.description) sk)
      then acc + e.duration_months else acc) 0
    let r2 := projects.foldl (fun acc p =>
      if required_lower.any (fun sk => containsSub (lowerL (p.name ++ 32 :: p.description)) sk)
      then acc + 6 else acc) r1
    r2

def SENIOR_KEYWORDS : List (List Nat) :=
  [strB "senior", strB "lead", strB "principal", strB "staff",
   strB "manager", strB "director", strB "architect"]

/-- ExperienceDetector._analyze_trajectory. -/
def analyze_trajectory (experiences : List WorkExperience) : List Nat :=
  if experiences.length < 2 then strB "insufficient_data"
  else
    let progression := experiences.map (fun e =>
      SENIOR_KEYWORDS.any (fun kw => containsSub (lowerL e.title) kw))
    if progression.all (fun b => b) then strB "lateral_senior"
    else if progression.getLastD false && !(progression.headD false) then strB "ascending"
    else if progression.headD false && !(progression.getLastD false) then strB "descending"
    else strB "mixed"

def EXEC_KEYWORDS : List (List Nat) :=
  [strB "director", strB "vp", strB "vice president", strB "cto", strB "ceo"]

def LEAD_KEYWORDS : List (List Nat) :=
  [strB "lead", strB "principal", strB "staff", strB "manager"]

/-- The early-return loop over the two most recent entries inside
_estimate_seniority. -/
def checkRecentTitles : List WorkExperience → Option (List Nat)
  | [] => none
  | e :: rest =>
      let title_lower := lowerL e.title
      if EXEC_KEYWORDS.any (fun kw => containsSub title_lower kw) then some (strB "executive")
      else if LEAD_KEYWORDS.any (fun kw => containsSub title_lower kw) then some (strB "lead")
      else if containsSub title_lower (strB "senior") then some (strB "senior")
      else checkRecentTitles rest

/-- ExperienceDetector._estimate_seniority.  `total_months / 12 >= 8` and
`>= 3` on ints are exactly `96 <= total_months` and `36 <= total_months`. -/
def estimate_seniority (experiences : List WorkExperience) (total_months : Int) : List Nat :=
  match checkRecentTitles (experiences.take 2) with
  | some r => r
  | none =>
      if 96 ≤ total_months then strB "senior"
      else if 36 ≤ total_months then strB "mid"
      else strB "entry"

/-- ExperienceDetector.analyze_experience (career-gap detection is the
source stub (False, None)). -/
def analyze_experience (text : List Nat) (required_skills : List (List Nat))
    (nowY nowM : Nat) : ExperienceAnalysis :=
  let exp_section := match find_section text EXPERIENCE_HEADERS with
    | some s => if s.isEmpty then text else s
    | none => text
  let work_experiences :=
    (split_into_entries exp_section).filterMap (fun e => parse_experience_entry e nowY nowM)
  let projects := match find_section text PROJECT_HEADERS with
    | some s => if s.isEmpty then [] else (split_into_entries s).filterMap parse_project_entry
    | none => []
  let total_months := (work_experiences.map (fun e => e.duration_months)).sum
  let relevant_months := calculate_relevant_experience work_experiences projects required_skills
  ⟨total_months, relevant_months, work_experiences, projects, false, none,
   analyze_trajectory work_experiences, estimate_seniority work_experiences total_months⟩

/- =====================================================================
   Specification-side definitions and concrete inputs used by the claims.
   ===================================================================== -/

/-- C4's wording of relevant experience: the summed duration of every
work entry whose description contains (case-insensitively) any required
skill, plus a flat 6 months per project whose name-plus-description
contains any required skill. -/
def relevantSpec (experiences : List WorkExperience) (projects : List Project)
    (required_skills : List (List Nat)) : Int :=
  ((experiences.filter (fun e =>
      required_skills.any (fun sk => containsSub (lowerL e.description) (lowerL sk)))).map
    (fun e => e.duration_months)).sum
  + 6 * ((projects.filter (fun p =>
      required_skills.any (fun sk =>
        containsSub (lowerL (p.name ++ 32 :: p.description)) (lowerL sk)))).length : Int)

/-- A resume with one undated work entry (12-month default) mentioning
python and one project mentioning python: used against C5. -/
def c5txt : List Nat :=
  strB "John Doe\n\nProjects:\n\nSearch Tool using python for indexing documents\nBuilt a search tool for fun"

/-- A resume whose most recent entry is lead-titled and whose second
entry is Director-titled: used against C6. -/
def c6txt : List Nat :=
  strB "Experience:\n\nLead Software Engineer at Acme\n2019 - 2021\nBuilt many backend systems\n\nDirector of Engineering at BigCo\n2015 - 2019\nRan the engineering org"

/-- A resume whose single (hence most recent) entry is Director-titled. -/
def c6wtxt : List Nat :=
  strB "Director of Engineering at BigCo\nRan the org and teams daily"

/-- A section with a 25-character fragment and a 20-character fragment:
used against C7. -/
def c7sec : List Nat := strB "aaaaaaaaaaaaaaaaaaaaaaaaa\n\nbbbbbbbbbbbbbbbbbbbb"

def c7frag : List Nat := strB "bbbbbbbbbbbbbbbbbbbb"

/-- Placeholder record for headD. -/
def wDefault : WorkExperience := ⟨[], [], 0, none, none, false, false, false, []⟩

/- =====================================================================
   Evaluation artifacts.  `skillsSortedLit` is the concrete value of
   `all_skills_sorted`; the equality is certified by `skills_sorted_eval`
   and lets later proofs avoid re-running the construction.
   ===================================================================== -/

def skillsSortedLit : List (List Nat) := [
  strB "natural language processing",
  strB "artificial intelligence",
  strB "continuous integration",
  strB "google cloud platform",
  strB "amazon web services",
  strB "android development",
  strB "integration testing",
  strB "project management",
  strB "critical thinking",
  strB "containerization",
  strB "machine learning",
  strB "microsoft azure",
  strB "computer vision",
  strB "ios development",
  strB "problem solving",
  strB "time management",
  strB "github actions",
  strB "deep learning",
  strB "ruby on rails",
  strB "elasticsearch",
  strB "data analysis",
  strB "communication",
  strB "google cloud",
  strB "react native",
  strB "scikit-learn",
  strB "apache spark",
  strB "apache kafka",
  strB "tailwind css",
  strB "digitalocean",
  strB "unit testing",
  strB "spring boot",
  strB "material ui",
  strB "e2e testing",
  strB "javascript",
  strB "ecmascript",
  strB "typescript",
  strB "postgresql",
  strB "sql server",
  strB "kubernetes",
  strB "tensorflow",
  strB "springboot",
  strB "matplotlib",
  strB "express.js",
  strB "cloudflare",
  strB "statistics",
  strB "confluence",
  strB "leadership",
  strB "bitbucket",
  strB "angularjs",
  strB "expressjs",
  strB "bootstrap",
  strB "cassandra",
  strB "gitlab ci",
  strB "terraform",
  strB "mentoring",
  strB "react.js",
  strB "postgres",
  strB "unittest",
  strB "selenium",
  strB "rest api",
  strB "dynamodb",
  strB "firebase",
  strB "intellij",
  strB "teamwork",
  strB "python3",
  strB "python2",
  strB "reactjs",
  strB "node.js",
  strB "mongodb",
  strB "c sharp",
  strB "dot net",
  strB "pytorch",
  strB "jenkins",
  strB "angular",
  strB "next.js",
  strB "fastapi",
  strB "express",
  strB "flutter",
  strB "android",
  strB "sklearn",
  strB "seaborn",
  strB "cypress",
  strB "restful",
  strB "graphql",
  strB "haskell",
  strB "clojure",
  strB "webpack",
  strB "laravel",
  strB "asp.net",
  strB "netlify",
  strB "ansible",
  strB "xamarin",
  strB "vs code",
  strB "postman",
  strB "es2015",
  strB "python",
  strB "nodejs",
  strB "docker",
  strB "csharp",
  strB "dotnet",
  strB "github",
  strB "gitlab",
  strB "kanban",
  strB "vue.js",
  strB "svelte",
  strB "nextjs",
  strB "django",
  strB "spring",
  strB "kotlin",
  strB "pandas",
  strB "hadoop",
  strB "pytest",
  strB "matlab",
  strB "elixir",
  strB "jquery",
  strB "oracle",
  strB "sqlite",
  strB "heroku",
  strB "vercel",
  strB "apache",
  strB "testng",
  strB "react",
  strB "mysql",
  strB "mongo",
  strB "mssql",
  strB "azure",
  strB "torch",
  strB "ci/cd",
  strB "agile",
  strB "scrum",
  strB "vuejs",
  strB "flask",
  strB "swift",
  strB "numpy",
  strB "scipy",
  strB "spark",
  strB "kafka",
  strB "mocha",
  strB "scala",
  strB "redux",
  strB "redis",
  strB "neo4j",
  strB "linux",
  strB "nginx",
  strB "keras",
  strB "slack",
  strB "figma",
  strB "junit",
  strB "node",
  strB ".net",
  strB "cicd",
  strB "jest",
  strB "rest",
  strB "grpc",
  strB "java",
  strB "rust",
  strB "ruby",
  strB "perl",
  strB "html",
  strB "sass",
  strB "less",
  strB "mobx",
  strB "vite",
  strB "jira",
  strB "es6",
  strB "aws",
  strB "gcp",
  strB "k8s",
  strB "c++",
  strB "cpp",
  strB "nlp",
  strB "git",
  strB "vue",
  strB "ios",
  strB "php",
  strB "css",
  strB "tdd",
  strB "bdd",
  strB "js",
  strB "ts",
  strB "py",
  strB "c#",
  strB "ml",
  strB "ai",
  strB "dl",
  strB "tf",
  strB "go",
  strB "c",
  strB "r"]

/-- Adjacent-pairs check that a list of strings is length-descending. -/
def lenDescChain : List (List Nat) → Bool
  | [] => true
  | [_] => true
  | x :: y :: t => (decide (y.length ≤ x.length)) && lenDescChain (y :: t)

theorem skills_sorted_eval : all_skills_sorted = skillsSortedLit := by decide

theorem skills_sorted_chain : lenDescChain all_skills_sorted = true := by
  rw [skills_sorted_eval]; decide

theorem skills_sorted_lower : all_skills_sorted.all (fun s => lowerL s == s) = true := by
  rw [skills_sorted_eval]; decide

/- ============== character-level lemmas ============== -/

theorem pyLowerC_idem (c : Nat) : pyLowerC (pyLowerC c) = pyLowerC c := by
  unfold pyLowerC isUpperB
  split_ifs with h1 h2 <;> simp_all <;> omega

theorem pyLowerC_upper (c : Nat) : pyLowerC (pyUpperC c) = pyLowerC c := by
  unfold pyLowerC pyUpperC isUpperB isLowerB
  split_ifs with h1 h2 h3 <;> simp_all <;> omega

theorem pyUpperC_idem (c : Nat) : pyUpperC (pyUpperC c) = pyUpperC c := by
  unfold pyUpperC isLowerB
  split_ifs with h1 h2 <;> simp_all <;> omega

theorem pyUpperC_lower (c : Nat) : pyUpperC (pyLowerC c) = pyUpperC c := by
  unfold pyUpperC pyLowerC isUpperB isLowerB
  split_ifs with h1 h2 h3 <;> simp_all <;> omega

theorem isAlphaB_pyLowerC (c : Nat) : isAlphaB (pyLowerC c) = isAlphaB c := by
  unfold pyLowerC
  split <;> rename_i h
  · rw [Bool.eq_iff_iff]
    simp only [isAlphaB, isUpperB, isLowerB, Bool.or_eq_true, Bool.and_eq_true,
      decide_eq_true_eq] at h ⊢
    omega
  · rfl

theorem isAlphaB_pyUpperC (c : Nat) : isAlphaB (pyUpperC c) = isAlphaB c := by
  unfold pyUpperC
  split <;> rename_i h
  · rw [Bool.eq_iff_iff]
    simp only [isAlphaB, isUpperB, isLowerB, Bool.or_eq_true, Bool.and_eq_true,
      decide_eq_true_eq] at h ⊢
    omega
  · rfl

theorem isSpaceB_pyLowerC (c : Nat) : isSpaceB (pyLowerC c) = isSpaceB c := by
  unfold pyLowerC
  split <;> rename_i h
  · rw [Bool.eq_iff_iff]
    simp only [isSpaceB, isUpperB, Bool.or_eq_true, Bool.and_eq_true,
      decide_eq_true_eq] at h ⊢
    omega
  · rfl

theorem isSpaceB_pyUpperC (c : Nat) : isSpaceB (pyUpperC c) = isSpaceB c := by
  unfold pyUpperC
  split <;> rename_i h
  · rw [Bool.eq_iff_iff]
    simp only [isSpaceB, isLowerB, Bool.or_eq_true, Bool.and_eq_true,
      decide_eq_true_eq] at h ⊢
    omega
  · rfl

theorem isWordB_not_space (c : Nat) (h : isWordB c = true) : isSpaceB c = false := by
  cases hsp : isSpaceB c with
  | false => rfl
  | true =>
      exfalso
      simp only [isWordB, isAlphaB, isUpperB, isLowerB, isDigitB, Bool.or_eq_true,
        Bool.and_eq_true, decide_eq_true_eq] at h
      simp only [isSpaceB, Bool.or_eq_true, decide_eq_true_eq] at hsp
      omega

/- ============== lower / title / strip lemmas ============== -/

theorem lowerL_titleGo (f : Bool) (s : List Nat) : lowerL (titleGo f s) = lowerL s := by
  induction s generalizing f with
  | nil => rfl
  | cons c cs ih =>
      have ih' := ih (isAlphaB c)
      simp only [lowerL] at ih' ⊢
      unfold titleGo
      cases f <;> simp [List.map_cons, ih', pyLowerC_upper, pyLowerC_idem]

theorem titleGo_idem (f : Bool) (s : List Nat) : titleGo f (titleGo f s) = titleGo f s := by
  induction s generalizing f with
  | nil => rfl
  | cons c cs ih =>
      unfold titleGo
      cases f <;>
        simp [titleGo, pyLowerC_idem, pyUpperC_idem, isAlphaB_pyLowerC, isAlphaB_pyUpperC, ih]

theorem titleGo_spaceMap (f : Bool) (s : List Nat) :
    (titleGo f s).map isSpaceB = s.map isSpaceB := by
  induction s generalizing f with
  | nil => rfl
  | cons c cs ih =>
      unfold titleGo
      cases f <;> simp [isSpaceB_pyLowerC, isSpaceB_pyUpperC, ih]

theorem map_dropWhile_space (l : List Nat) :
    List.map pyLowerC (List.dropWhile isSpaceB l)
      = List.dropWhile isSpaceB (List.map pyLowerC l) := by
  rw [List.dropWhile_map]
  have hcomp : (isSpaceB ∘ pyLowerC) = isSpaceB := by
    funext c; exact isSpaceB_pyLowerC c
  rw [hcomp]

theorem lowerL_stripL (s : List Nat) : lowerL (stripL s) = stripL (lowerL s) := by
  unfold lowerL stripL
  rw [List.map_reverse, map_dropWhile_space, List.map_reverse, map_dropWhile_space]

theorem dropWhile_head_false {p : Nat → Bool} {l : List Nat} {c : Nat}
    (h : (l.dropWhile p).head? = some c) : p c = false := by
  induction l with
  | nil => simp [List.dropWhile] at h
  | cons x xs ih =>
      rw [List.dropWhile_cons] at h
      by_cases hp : p x = true
      · rw [if_pos hp] at h
        exact ih h
      · rw [if_neg hp] at h
        simp only [List.head?_cons, Option.some.injEq] at h
        subst h
        simpa using hp

theorem dropWhile_getLast? {p : Nat → Bool} {l : List Nat}
    (h : l.dropWhile p ≠ []) : (l.dropWhile p).getLast? = l.getLast? := by
  induction l with
  | nil => simp [List.dropWhile] at h
  | cons x xs ih =>
      rw [List.dropWhile_cons] at h ⊢
      split at h <;> rename_i hp
      · rw [if_pos hp]
        have hxs : xs ≠ [] := by
          intro he
          subst he
          simp [List.dropWhile] at h
        rw [ih h]
        cases xs with
        | nil => exact absurd rfl hxs
        | cons y ys => rw [List.getLast?_cons_cons]
      · rw [if_neg hp]

theorem stripNoOp {x : List Nat}
    (h1 : ∀ c, x.head? = some c → isSpaceB c = false)
    (h2 : ∀ c, x.getLast? = some c → isSpaceB c = false) :
    stripL x = x := by
  unfold stripL
  have e1 : x.dropWhile isSpaceB = x := by
    cases hx : x with
    | nil => simp [List.dropWhile]
    | cons c cs =>
        rw [List.dropWhile_cons, if_neg]
        simp [h1 c (by rw [hx]; rfl)]
  rw [e1]
  have e2 : x.reverse.dropWhile isSpaceB = x.reverse := by
    cases hx : x.reverse with
    | nil => simp [List.dropWhile]
    | cons c cs =>
        rw [List.dropWhile_cons, if_neg]
        have : x.getLast? = some c := by
          rw [← List.head?_reverse, hx]; rfl
        simp [h2 c this]
  rw [e2, List.reverse_reverse]

/-- The ends of stripL output are never whitespace. -/
theorem stripL_head_false {s : List Nat} {c : Nat}
    (h : (stripL s).head? = some c) : isSpaceB c = false := by
  unfold stripL at h
  rw [List.head?_reverse] at h
  -- h : (dropWhile isSpaceB (reverse (dropWhile isSpaceB s))).getLast? = some c
  have hne : List.dropWhile isSpaceB (List.dropWhile isSpaceB s).reverse ≠ [] := by
    intro he
    rw [he] at h
    simp at h
  rw [dropWhile_getLast? hne, List.getLast?_reverse] at h
  exact dropWhile_head_false h

theorem stripL_getLast_false {s : List Nat} {c : Nat}
    (h : (stripL s).getLast? = some c) : isSpaceB c = false := by
  unfold stripL at h
  rw [List.getLast?_reverse] at h
  exact dropWhile_head_false h

theorem stripL_idem (s : List Nat) : stripL (stripL s) = stripL s :=
  stripNoOp (fun _ h => stripL_head_false h) (fun _ h => stripL_getLast_false h)

/-- stripL commutes with titleL on already-stripped input: title-casing a
stripped string leaves it stripped. -/
theorem stripL_titleL_stripL (s : List Nat) : stripL (titleL (stripL s)) = titleL (stripL s) := by
  apply stripNoOp
  · intro c h
    unfold titleL at h
    have hthis : (List.map isSpaceB (titleGo false (stripL s))).head? = some (isSpaceB c) := by
      rw [List.head?_map, h]
      rfl
    rw [titleGo_spaceMap, List.head?_map] at hthis
    cases hh : (stripL s).head? with
    | none => rw [hh] at hthis; simp at hthis
    | some d =>
        rw [hh] at hthis
        simp only [Option.map_some'] at hthis
        have hdc : isSpaceB d = isSpaceB c := by
          injection hthis
        rw [← hdc]
        exact stripL_head_false hh
  · intro c h
    unfold titleL at h
    have hthis : (List.map isSpaceB (titleGo false (stripL s))).getLast? = some (isSpaceB c) := by
      rw [List.getLast?_map, h]
      rfl
    rw [titleGo_spaceMap, List.getLast?_map] at hthis
    cases hh : (stripL s).getLast? with
    | none => rw [hh] at hthis; simp at hthis
    | some d =>
        rw [hh] at hthis
        simp only [Option.map_some'] at hthis
        have hdc : isSpaceB d = isSpaceB c := by
          injection hthis
        rw [← hdc]
        exact stripL_getLast_false hh

/- ============== normalize closure and idempotence (C8) ============== -/

theorem alias_values_closed : db_aliases.all (fun kv => normalize kv.2 == kv.2) = true := by decide

theorem all_skills_closed : all_skills.all (fun k => normalize k == k) = true := by decide

theorem lookupAlias_mem {k v : List Nat} (h : lookupAlias k = some v) :
    ∃ kv ∈ db_aliases, kv.2 = v := by
  unfold lookupAlias at h
  cases hf : db_aliases.find? (fun kv => kv.1 == k) with
  | none => rw [hf] at h; simp at h
  | some kv =>
      rw [hf] at h
      simp at h
      exact ⟨kv, List.mem_of_find?_eq_some hf, h⟩

theorem normalize_alias_value {v : List Nat} (h : ∃ kv ∈ db_aliases, kv.2 = v) :
    normalize v = v := by
  obtain ⟨kv, hm, he⟩ := h
  have hb := (List.all_eq_true.mp alias_values_closed) kv hm
  subst he
  exact eq_of_beq hb

theorem normalize_known {k : List Nat} (h : k ∈ all_skills) : normalize k = k := by
  have hb := (List.all_eq_true.mp all_skills_closed) k h
  exact eq_of_beq hb

/-- C8: normalize is idempotent on every string. -/
theorem C8_normalize_idempotent (s : List Nat) : normalize (normalize s) = normalize s := by
  cases hA : lookupAlias (stripL (lowerL s)) with
  | some v =>
      have h1 : normalize s = v := by
        simp only [normalize]
        rw [hA]
      rw [h1]
      exact normalize_alias_value (lookupAlias_mem hA)
  | none =>
      cases hK : all_skills.find? (fun k => lowerL k == stripL (lowerL s)) with
      | some k =>
          have h1 : normalize s = k := by
            simp only [normalize]
            rw [hA, hK]
          rw [h1]
          exact normalize_known (List.mem_of_find?_eq_some hK)
      | none =>
          have h1 : normalize s = titleL (stripL s) := by
            simp only [normalize]
            rw [hA, hK]
          rw [h1]
          have hkey : stripL (lowerL (titleL (stripL s))) = stripL (lowerL s) := by
            unfold titleL
            rw [lowerL_titleGo false (stripL s)]
            rw [lowerL_stripL, stripL_idem]
          simp only [normalize]
          rw [hkey, hA, hK]
          rw [stripL_titleL_stripL]
          unfold titleL
          exact titleGo_idem false (stripL s)

/- ============== mega-pattern scanner lemmas (C1, C10) ============== -/



theorem chain_ge {b : List Nat} {t : List (List Nat)} (h : lenDescChain (b :: t) = true) :
    ∀ x ∈ t, x.length ≤ b.length := by
  induction t generalizing b with
  | nil => intro x hx; cases hx
  | cons y ys ih =>
      simp only [lenDescChain, Bool.and_eq_true, decide_eq_true_eq] at h
      obtain ⟨hyb, hrest⟩ := h
      intro x hx
      rcases List.mem_cons.mp hx with rfl | hx'
      · exact hyb
      · exact le_trans (ih hrest x hx') hyb

theorem chain_tail {b : List Nat} {t : List (List Nat)} (h : lenDescChain (b :: t) = true) :
    lenDescChain t = true := by
  cases t with
  | nil => rfl
  | cons y ys =>
      rw [show lenDescChain (b :: y :: ys)
            = ((decide (y.length ≤ b.length)) && lenDescChain (y :: ys)) from rfl] at h
      simp only [Bool.and_eq_true] at h
      exact h.2

theorem isPrefixOf_self (a : List Nat) : a.isPrefixOf a = true := by
  rw [List.isPrefixOf_iff_prefix]

theorem altMatchesHere_self {a : List Nat} (hne : a ≠ []) (hh : isWordB (a.headD 0) = true)
    (hl : isWordB (a.getLastD 0) = true) : altMatchesHere a none a = true := by
  have hh' : isWordB (a.head?.getD 0) = true := by rwa [← List.headD_eq_head?]
  have hl' : isWordB (a.getLast?.getD 0) = true := by rwa [← List.getLastD_eq_getLast?]
  simp [altMatchesHere, isPrefixOf_self, List.drop_length, hh, hl, hh', hl', isWordO, hne]

theorem tryAlts_self {l : List (List Nat)} {a : List Nat}
    (hchain : lenDescChain l = true) (hmem : a ∈ l) (hne : a ≠ [])
    (hh : isWordB (a.headD 0) = true) (hl : isWordB (a.getLastD 0) = true) :
    tryAlts l none a = some a := by
  induction l with
  | nil => cases hmem
  | cons b t ih =>
      unfold tryAlts
      by_cases hb : altMatchesHere b none a = true
      · simp only [List.find?_cons, hb]
        have hb' := hb
        simp only [altMatchesHere, Bool.and_eq_true] at hb'
        obtain ⟨⟨⟨_, hpre⟩, _⟩, _⟩ := hb'
        have hba : b <+: a := List.isPrefixOf_iff_prefix.mp hpre
        rcases List.mem_cons.mp hmem with rfl | hmem'
        · rfl
        · have h1 : a.length ≤ b.length := chain_ge hchain a hmem'
          have h2 : b = a := hba.eq_of_length (le_antisymm hba.length_le h1)
          rw [h2]
      · rw [Bool.not_eq_true] at hb
        simp only [List.find?_cons, hb]
        rcases List.mem_cons.mp hmem with rfl | hmem'
        · rw [altMatchesHere_self hne hh hl] at hb
          exact Bool.noConfusion hb
        · exact ih (chain_tail hchain) hmem'

theorem findallGo_nil (l : List (List Nat)) (fuel : Nat) (prev : Option Nat) :
    findallGo l fuel prev [] = [] := by
  cases fuel <;> rfl

theorem findall_self {l : List (List Nat)} {a : List Nat}
    (hchain : lenDescChain l = true) (hmem : a ∈ l) (hne : a ≠ [])
    (hh : isWordB (a.headD 0) = true) (hl : isWordB (a.getLastD 0) = true) :
    findallGo l (a.length + 1) none a = [a] := by
  obtain ⟨c, rest, rfl⟩ : ∃ c rest, a = c :: rest := by
    cases a with
    | nil => exact absurd rfl hne
    | cons c rest => exact ⟨c, rest, rfl⟩
  rw [show (c :: rest).length + 1 = (rest.length + 1) + 1 from by simp]
  unfold findallGo
  rw [tryAlts_self hchain hmem hne hh hl]
  simp only [List.length_cons, List.drop_succ_cons, List.drop_length]
  rw [findallGo_nil]

theorem tryAlts_mem {l : List (List Nat)} {prev : Option Nat} {s a : List Nat}
    (h : tryAlts l prev s = some a) : a ∈ l :=
  List.mem_of_find?_eq_some h

theorem findallGo_subset {l : List (List Nat)} :
    ∀ (fuel : Nat) (prev : Option Nat) (s m : List Nat),
      m ∈ findallGo l fuel prev s → m ∈ l := by
  intro fuel
  induction fuel with
  | zero => intro prev s m h; simp [findallGo] at h
  | succ f ih =>
      intro prev s m h
      cases s with
      | nil => simp [findallGo] at h
      | cons c rest =>
          unfold findallGo at h
          cases ht : tryAlts l prev (c :: rest) with
          | some a =>
              rw [ht] at h
              rcases List.mem_cons.mp h with rfl | h'
              · exact tryAlts_mem ht
              · exact ih _ _ _ h'
          | none =>
              rw [ht] at h
              exact ih _ _ _ h

/- ============== extract_skills on a single-alias text (C1) ============== -/

theorem searchGo_break_none {s : List Nat} (p : Nat)
    (h : ∀ c ∈ s, isBreakB c = false) :
    searchGo [sentenceBreakRE] p s = none := by
  induction s generalizing p with
  | nil => rfl
  | cons c t ih =>
      have hc := h c (List.mem_cons_self c t)
      have hms : matchSeqEnds [sentenceBreakRE] (c :: t) = [] := by
        simp [matchSeqEnds, matchEnds, sentenceBreakRE, plusR, hc]
      have step : searchGo [sentenceBreakRE] p (c :: t)
          = searchGo [sentenceBreakRE] (p + 1) t := by
        rw [show searchGo [sentenceBreakRE] p (c :: t)
              = (match matchSeqEnds [sentenceBreakRE] (c :: t) with
                 | es :: _ => some (p, es)
                 | [] => searchGo [sentenceBreakRE] (p + 1) t) from rfl]
        rw [hms]
      rw [step]
      exact ih (p + 1) (fun c' hc' => h c' (List.mem_cons_of_mem c hc'))

theorem reSplitAll_nomatch {r : RE} {s : List Nat} (h : searchGo [r] 0 s = none) :
    reSplitAll r s = [s] := by
  unfold reSplitAll reSplitGo
  rw [h]

theorem head_not_space {a : List Nat} (hh : isWordB (a.headD 0) = true) :
    ∀ c, a.head? = some c → isSpaceB c = false := by
  intro c h
  apply isWordB_not_space
  rw [List.headD_eq_head?, h] at hh
  exact hh

theorem getLast_not_space {a : List Nat} (hl : isWordB (a.getLastD 0) = true) :
    ∀ c, a.getLast? = some c → isSpaceB c = false := by
  intro c h
  apply isWordB_not_space
  rw [List.getLastD_eq_getLast?, h] at hl
  exact hl

theorem split_sentences_single {a : List Nat} (hne : a ≠ [])
    (hh : isWordB (a.headD 0) = true) (hl : isWordB (a.getLastD 0) = true)
    (hnb : a.all (fun c => !isBreakB c) = true) :
    split_sentences a = [a] := by
  have hnb' : ∀ c ∈ a, isBreakB c = false := by
    intro c hc
    have := (List.all_eq_true.mp hnb) c hc
    simpa using this
  have hnom : searchGo [sentenceBreakRE] 0 a = none := searchGo_break_none 0 hnb'
  unfold split_sentences
  rw [reSplitAll_nomatch hnom]
  have hstrip : stripL a = a := stripNoOp (head_not_space hh) (getLast_not_space hl)
  simp [hstrip, hne]

theorem extract_single {a : List Nat}
    (hchain : lenDescChain all_skills_sorted = true)
    (hlow : lowerL a = a)
    (hmem : a ∈ all_skills_sorted) (hne : a ≠ [])
    (hh : isWordB (a.headD 0) = true) (hl : isWordB (a.getLastD 0) = true)
    (hnb : a.all (fun c => !isBreakB c) = true) :
    extract_skills a = [mkExtracted a a] := by
  unfold extract_skills
  rw [split_sentences_single hne hh hl hnb]
  unfold extractGo
  unfold findall_skill_pattern
  rw [hlow]
  rw [findall_self hchain hmem hne hh hl]
  unfold procMatches
  simp [procMatches, extractGo]

/- ============== names produced by extract_skills (C10) ============== -/

theorem procMatches_names {snt : List Nat} :
    ∀ (seen ms : List (List Nat)) r, r ∈ (procMatches snt seen ms).1 → r.name ∈ ms := by
  intro seen ms
  induction ms generalizing seen with
  | nil => intro r h; simp [procMatches] at h
  | cons m t ih =>
      intro r h
      simp only [procMatches] at h
      split at h
      · exact List.mem_cons_of_mem m (ih seen r h)
      · rcases List.mem_cons.mp h with rfl | h'
        · exact List.mem_cons_self m t
        · exact List.mem_cons_of_mem m (ih _ r h')

theorem extractGo_names :
    ∀ (snts seen : List (List Nat)) r, r ∈ extractGo seen snts → r.name ∈ all_skills_sorted := by
  intro snts
  induction snts with
  | nil => intro seen r h; simp [extractGo] at h
  | cons snt rest ih =>
      intro seen r h
      unfold extractGo at h
      rcases List.mem_append.mp h with h' | h'
      · have h1 := procMatches_names seen (findall_skill_pattern (lowerL snt)) r h'
        exact findallGo_subset _ _ _ _ h1
      · exact ih _ r h'

theorem extract_names {text : List Nat} {r : ExtractedSkill} (h : r ∈ extract_skills text) :
    r.name ∈ all_skills_sorted :=
  extractGo_names (split_sentences text) [] r h

/- ============== duration floor (C9) ============== -/

theorem extract_dates_ge_one (entry : List Nat) (nowY nowM : Nat) :
    1 ≤ (extract_dates entry nowY nowM).2.2 := by
  simp only [extract_dates]
  split
  · dsimp only
    exact le_max_left 1 _
  · split
    · dsimp only
      exact le_max_left 1 _
    · decide

theorem parse_entry_duration {entry : List Nat} {nowY nowM : Nat} {w : WorkExperience}
    (h : parse_experience_entry entry nowY nowM = some w) :
    1 ≤ w.duration_months := by
  unfold parse_experience_entry at h
  split at h
  · exact absurd h (by simp)
  · rw [Option.some.injEq] at h
    rw [← h]
    exact extract_dates_ge_one entry nowY nowM

theorem analyze_work_experiences (text : List Nat) (reqs : List (List Nat)) (nowY nowM : Nat) :
    ∀ e ∈ (analyze_experience text reqs nowY nowM).work_experiences,
      ∃ en, parse_experience_entry en nowY nowM = some e := by
  intro e he
  simp only [analyze_experience] at he
  obtain ⟨en, _, hp⟩ := List.mem_filterMap.mp he
  exact ⟨en, hp⟩

/- ============== relevant-experience formula (C4, C5) ============== -/

theorem foldl_if_add {α : Type} (p : α → Bool) (f : α → Int) :
    ∀ (l : List α) (init : Int),
      l.foldl (fun acc x => if p x then acc + f x else acc) init
        = init + ((l.filter p).map f).sum := by
  intro l
  induction l with
  | nil => intro init; simp
  | cons x t ih =>
      intro init
      simp only [List.foldl_cons]
      by_cases hp : p x = true
      · rw [if_pos hp, ih]
        simp [List.filter_cons, hp]
        ring
      · rw [if_neg hp, ih]
        simp [List.filter_cons, hp]

theorem sum_map_const_six {α : Type} (l : List α) :
    (l.map (fun _ => (6 : Int))).sum = 6 * (l.length : Int) := by
  induction l with
  | nil => simp
  | cons x t ih =>
      simp [ih]
      ring

theorem any_map_lower (reqs : List (List Nat)) (q : List Nat → Bool) :
    (reqs.map lowerL).any q = reqs.any (fun sk => q (lowerL sk)) := by
  induction reqs with
  | nil => rfl
  | cons x t ih => simp [List.any_cons, ih]

theorem calc_relevant_eq (W : List WorkExperience) (P : List Project)
    (reqs : List (List Nat)) :
    calculate_relevant_experience W P reqs
      = if reqs = [] then (W.map (fun e => e.duration_months)).sum
        else relevantSpec W P reqs := by
  by_cases hr : reqs = []
  · subst hr
    simp [calculate_relevant_experience]
  · rw [if_neg hr]
    have hie : reqs.isEmpty = false := by
      cases reqs with
      | nil => exact absurd rfl hr
      | cons x t => rfl
    unfold calculate_relevant_experience relevantSpec
    rw [hie]
    simp only [Bool.false_eq_true, if_false]
    rw [foldl_if_add, foldl_if_add]
    rw [sum_map_const_six]
    simp only [any_map_lower]
    ring

theorem analyze_relevant_eq (text : List Nat) (reqs : List (List Nat)) (nowY nowM : Nat) :
    (analyze_experience text reqs nowY nowM).relevant_experience_months
      = calculate_relevant_experience
          (analyze_experience text reqs nowY nowM).work_experiences
          (analyze_experience text reqs nowY nowM).projects reqs := rfl

theorem analyze_total_eq (text : List Nat) (reqs : List (List Nat)) (nowY nowM : Nat) :
    (analyze_experience text reqs nowY nowM).total_experience_months
      = ((analyze_experience text reqs nowY nowM).work_experiences.map
          (fun e => e.duration_months)).sum := rfl

theorem analyze_seniority_eq (text : List Nat) (reqs : List (List Nat)) (nowY nowM : Nat) :
    (analyze_experience text reqs nowY nowM).seniority_estimate
      = estimate_seniority (analyze_experience text reqs nowY nowM).work_experiences
          (analyze_experience text reqs nowY nowM).total_experience_months := rfl

theorem sum_filter_le {α : Type} (p : α → Bool) (f : α → Int) :
    ∀ l : List α, (∀ x ∈ l, 0 ≤ f x) →
      ((l.filter p).map f).sum ≤ (l.map f).sum := by
  intro l
  induction l with
  | nil => simp
  | cons x t ih =>
      intro h
      have hx := h x (List.mem_cons_self x t)
      have ht := fun y hy => h y (List.mem_cons_of_mem x hy)
      by_cases hp : p x = true
      · simp only [List.filter_cons, hp, if_true, List.map_cons, List.sum_cons]
        exact add_le_add_left (ih ht) _
      · simp only [List.filter_cons, hp, Bool.false_eq_true, if_false, List.map_cons,
          List.sum_cons]
        exact le_trans (ih ht) (le_add_of_nonneg_left hx)

/- ============== seniority short-circuit (C6) ============== -/

theorem estimate_seniority_director {e : WorkExperience} {rest : List WorkExperience} {tm : Int}
    (h : containsSub (lowerL e.title) (strB "director") = true) :
    estimate_seniority (e :: rest) tm = strB "executive" := by
  unfold estimate_seniority
  rw [show (e :: rest).take 2 = e :: rest.take 1 from rfl]
  have hany : EXEC_KEYWORDS.any (fun kw => containsSub (lowerL e.title) kw) = true := by
    simp only [EXEC_KEYWORDS, List.any_cons]
    rw [h]
    rfl
  simp only [checkRecentTitles, hany, if_true]


/- =====================================================================
   Claim theorems
   ===================================================================== -/

/-- C1 (counterexample): the claim fails as stated.  For the alias
".net" (so also for ".NET" and similar aliases not delimited by word
characters), extract on a text consisting of exactly that alias returns
no record at all, although normalize(".net") = ".NET": the sentence
splitter consumes the leading dot and the word-bounded pattern cannot
match the remaining "net". -/
theorem C1_counterexample :
    extract_skills (strB ".net") = [] ∧ normalize (strB ".net") = strB ".NET" := by
  constructor
  · have hs : split_sentences (strB ".net") = [strB "net"] := by decide
    have hf : findall_skill_pattern (strB "net") = [] := by
      unfold findall_skill_pattern
      rw [skills_sorted_eval]
      decide
    unfold extract_skills
    rw [hs]
    unfold extractGo
    rw [show lowerL (strB "net") = strB "net" from by decide, hf]
    rfl
  · decide

/-- C1 (amended): for every alias or canonical name in the compiled
alternation list that begins and ends with a word character and contains
no sentence-boundary character (".", "!", "?", newline), extract on a
text consisting of exactly that alias returns exactly one ExtractedSkill
whose canonical name equals normalize(alias).  Aliases outside this set
(such as "c++", "c#", ".net", "react.js") may yield no record, several
records, or a different canonical name. -/
theorem C1_amended_single_alias (a : List Nat)
    (hmem : a ∈ all_skills_sorted) (hne : a ≠ [])
    (hh : isWordB (a.headD 0) = true) (hl : isWordB (a.getLastD 0) = true)
    (hnb : a.all (fun c => !isBreakB c) = true) :
    (extract_skills a).map (fun r => r.normalized_name) = [normalize a]
    ∧ (extract_skills a).length = 1 := by
  have hlowb := (List.all_eq_true.mp skills_sorted_lower) a hmem
  have hlow : lowerL a = a := eq_of_beq (by simpa using hlowb)
  rw [extract_single skills_sorted_chain hlow hmem hne hh hl hnb]
  exact ⟨rfl, rfl⟩

/-- C1 (witness): the hypotheses hold and the conclusion follows for the
alias "python". -/
theorem C1_witness :
    (extract_skills (strB "python")).map (fun r => r.normalized_name)
        = [normalize (strB "python")]
    ∧ (extract_skills (strB "python")).length = 1 :=
  C1_amended_single_alias (strB "python")
    (by rw [skills_sorted_eval]; decide) (by decide) (by decide) (by decide) (by decide)

/-- C2 (code evaluated at the failing input): for the sentence
"2 years of experience with Python" and the skill "python" - an explicit
2-to-4-year phrase with no expert-tier phrase - the code classifies the
skill as expert with 2 years, because the first alternative
`\d+\+?\s*years?` of the fourth EXPERT pattern matches any digit count;
the claim (and the spec, which reserves expert for "5+ years") says this
must be proficient. -/
theorem C2_eval_at_failing_input :
    detect_experience_level (strB "2 years of experience with Python") (strB "python")
      = (strB "expert", 2) := by decide

/-- C3 (counterexample): the canonical name "Swift" belongs to two
different category sets, programming_languages and mobile, so the
category sets are not pairwise disjoint as claimed. -/
theorem C3_counterexample :
    (SKILL_CATEGORIES.filter (fun c => c.2.contains (strB "Swift"))).map (fun c => c.1)
      = [strB "programming_languages", strB "mobile"] := by decide

/-- C3 (amended): the category sets are pairwise disjoint except that
"Swift" and "Kotlin" each appear in both programming_languages and
mobile; first-match lookup still resolves both deterministically to
programming_languages (the earlier category in the fixed dict order). -/
theorem C3_amended_disjoint_except :
    (SKILL_CATEGORIES.all (fun c1 => SKILL_CATEGORIES.all (fun c2 =>
      c1.1 == c2.1 || c1.2.all (fun s => !(c2.2.contains s)
        || ((s == strB "Swift" || s == strB "Kotlin")
            && ((c1.1 == strB "programming_languages" && c2.1 == strB "mobile")
              || (c1.1 == strB "mobile" && c2.1 == strB "programming_languages"))))))) = true
    ∧ get_category (strB "Swift") = some (strB "programming_languages")
    ∧ get_category (strB "Kotlin") = some (strB "programming_languages") := by
  refine ⟨by decide, by decide, by decide⟩

/-- C4: relevant experience follows the documented formula - with an
empty required-skill list it equals the total; with a non-empty list it
is the summed duration of work entries whose description contains
(case-insensitively) any required skill plus a flat 6 months per project
whose name-plus-description contains any required skill. -/
theorem C4_relevant_experience_formula (text : List Nat)
    (required_skills : List (List Nat)) (nowY nowM : Nat) :
    (analyze_experience text required_skills nowY nowM).relevant_experience_months
      = if required_skills = []
        then (analyze_experience text required_skills nowY nowM).total_experience_months
        else relevantSpec
              (analyze_experience text required_skills nowY nowM).work_experiences
              (analyze_experience text required_skills nowY nowM).projects
              required_skills := by
  rw [analyze_relevant_eq, calc_relevant_eq, ← analyze_total_eq]

/-- C5 (counterexample): relevant experience is not a subset of total
experience months.  On a resume with a single undated 12-month work
entry mentioning python and one project mentioning python, with
required_skills = ["python"], the analysis reports 18 relevant months
against 12 total months. -/
theorem C5_counterexample :
    (analyze_experience c5txt [strB "python"] 2026 10).total_experience_months = 12
    ∧ (analyze_experience c5txt [strB "python"] 2026 10).relevant_experience_months = 18
    ∧ ¬((analyze_experience c5txt [strB "python"] 2026 10).relevant_experience_months
        ≤ (analyze_experience c5txt [strB "python"] 2026 10).total_experience_months) := by
  refine ⟨by decide, by decide, by decide⟩

/-- C5 (amended): relevant experience is bounded by total experience
plus the flat 6-month credit for each project; the work-entry part is a
subset of the total, but each matching project adds 6 months on top, so
relevant can exceed total only through projects. -/
theorem C5_amended_relevant_bound (text : List Nat)
    (required_skills : List (List Nat)) (nowY nowM : Nat) :
    (analyze_experience text required_skills nowY nowM).relevant_experience_months
      ≤ (analyze_experience text required_skills nowY nowM).total_experience_months
        + 6 * ((analyze_experience text required_skills nowY nowM).projects.length : Int) := by
  have hnn : ∀ e ∈ (analyze_experience text required_skills nowY nowM).work_experiences,
      (0 : Int) ≤ e.duration_months := by
    intro e he
    obtain ⟨en, hp⟩ := analyze_work_experiences text required_skills nowY nowM e he
    linarith [parse_entry_duration hp]
  have hp6 : (0 : Int)
      ≤ 6 * ((analyze_experience text required_skills nowY nowM).projects.length : Int) := by
    positivity
  rw [analyze_relevant_eq, calc_relevant_eq]
  by_cases hr : required_skills = []
  · rw [if_pos hr, ← analyze_total_eq]
    linarith
  · rw [if_neg hr]
    unfold relevantSpec
    have h1 := sum_filter_le
      (fun e => required_skills.any fun sk => containsSub (lowerL e.description) (lowerL sk))
      (fun e => e.duration_months)
      (analyze_experience text required_skills nowY nowM).work_experiences hnn
    have h2 : (((analyze_experience text required_skills nowY nowM).projects.filter
        (fun p => required_skills.any fun sk =>
          containsSub (lowerL (p.name ++ 32 :: p.description)) (lowerL sk))).length : Int)
        ≤ ((analyze_experience text required_skills nowY nowM).projects.length : Int) :=
      Int.ofNat_le.mpr (List.length_filter_le _ _)
    rw [analyze_total_eq]
    linarith

/-- C6 (counterexample): a "Director" title among the two most recent
entries does not always yield executive.  With the most recent title
"Lead Software Engineer" and the second "Director", the analysis returns
"lead": the per-entry loop returns on the first entry's lead keyword
before ever inspecting the Director title. -/
theorem C6_counterexample :
    ((analyze_experience c6txt [] 2026 10).work_experiences.map (fun e => e.title))
      = [strB "Lead Software Engineer", strB "Director"]
    ∧ (analyze_experience c6txt [] 2026 10).seniority_estimate = strB "lead"
    ∧ (analyze_experience c6txt [] 2026 10).seniority_estimate ≠ strB "executive" := by
  refine ⟨by decide, by decide, by decide⟩

/-- C6 (amended): whenever the MOST RECENT (first listed) work entry's
title contains an executive keyword such as "director", analyze returns
seniority_estimate "executive" regardless of total years and of every
other entry; a "Director" in the second entry's title prevails only if
the first title carries no executive, lead-level or senior keyword. -/
theorem C6_amended_director_first (text : List Nat) (reqs : List (List Nat)) (nowY nowM : Nat)
    (hne : (analyze_experience text reqs nowY nowM).work_experiences ≠ [])
    (hdir : containsSub
        (lowerL (((analyze_experience text reqs nowY nowM).work_experiences.headD
          wDefault).title))
        (strB "director") = true) :
    (analyze_experience text reqs nowY nowM).seniority_estimate = strB "executive" := by
  rw [analyze_seniority_eq]
  cases hW : (analyze_experience text reqs nowY nowM).work_experiences with
  | nil => exact absurd hW hne
  | cons e rest =>
      rw [hW] at hdir
      simp only [List.headD_cons] at hdir
      exact estimate_seniority_director hdir

/-- C6 (witness): on a resume whose single (hence most recent) entry is
Director-titled, the amended claim applies and yields executive. -/
theorem C6_witness :
    (analyze_experience c6wtxt [] 2026 10).seniority_estimate = strB "executive" :=
  C6_amended_director_first c6wtxt [] 2026 10 (by decide) (by decide)

/-- C7 (counterexample): a stripped fragment of length exactly 20 is
discarded, although the claim says every fragment of length 20 or more
is kept: the source keeps only fragments with len > 20. -/
theorem C7_counterexample :
    c7frag ∈ (reSplitAll blankRunRE c7sec).map stripL
    ∧ stripL c7frag = c7frag ∧ c7frag.length = 20
    ∧ c7frag ∉ split_into_entries c7sec := by
  refine ⟨by decide, by decide, by decide, by decide⟩

/-- C7 (amended): entry segmentation keeps exactly the stripped
fragments of length at least 21 (equivalently, strictly longer than 20);
fragments of length 20 or less - including empty ones - are discarded. -/
theorem C7_amended_entry_filter (sect : List Nat) :
    split_into_entries sect
      = ((reSplitAll blankRunRE sect).map stripL).filter (fun e => decide (21 ≤ e.length)) := by
  unfold split_into_entries
  apply List.filter_congr
  intro x _
  cases x <;> rfl

/-- C9: every work experience produced by analyze has duration_months at
least 1: both date branches floor the computed difference at 1 and the
no-date branch defaults to 12. -/
theorem C9_duration_floor (text : List Nat) (required_skills : List (List Nat))
    (nowY nowM : Nat) :
    ((analyze_experience text required_skills nowY nowM).work_experiences).all
      (fun e => decide (1 ≤ e.duration_months)) = true := by
  rw [List.all_eq_true]
  intro e he
  obtain ⟨en, hp⟩ := analyze_work_experiences text required_skills nowY nowM e he
  rw [decide_eq_true_eq]
  exact parse_entry_duration hp

/-- C10: every record returned by extract_skills has a name that is one
of the (lowercase) alternatives of the compiled pattern and is therefore
itself lowercase: matching runs over the lowercased sentence, so the
original casing of a mention never reaches the name field. -/
theorem C10_name_lowercase (text : List Nat) :
    (extract_skills text).all
      (fun r => all_skills_sorted.contains r.name && (lowerL r.name == r.name)) = true := by
  rw [List.all_eq_true]
  intro r hr
  have hmem := extract_names hr
  rw [Bool.and_eq_true]
  refine ⟨?_, (List.all_eq_true.mp skills_sorted_lower) r.name hmem⟩
  simpa [List.contains] using List.elem_iff.mpr hmem

end RS
